import Mathlib

/-!
Verification of the card border-detection and geometric-normalization
pipeline (src/card_preprocessor.py, src/cloudrun/preprocessing.py,
src/cloudrun/main.py).

The image-processing primitives supplied by external libraries
(PIL decoding and photometric enhancement, OpenCV contour extraction,
JPEG encoding) are taken as abstract function parameters; everything the
repository itself computes (contour filtering, candidate selection,
padding and clamping, the resize arithmetic, the thumbnail quality loop,
and the exception-handling structure) is translated directly from the
source.  Python float arithmetic in the resizer is modelled exactly as
IEEE-754 binary64 round-to-nearest-even over exact rationals, and Python
exceptions are modelled with Except.
-/

namespace CardPipe

/-! ## IEEE-754 binary64 model (for Python float arithmetic) -/

/-- Fuelled bit-length helper: number of binary digits of a natural
number.  The fuel argument only bounds the recursion depth. -/
def bitlenAux : ℕ → ℕ → ℕ
  | 0, _ => 0
  | fuel + 1, n => if n = 0 then 0 else bitlenAux fuel (n / 2) + 1

/-- Number of binary digits of a natural number. -/
def bitlen (n : ℕ) : ℕ := bitlenAux n n

/-- Floor of the base-2 logarithm of a positive rational. -/
def floorLog2Q (q : ℚ) : ℤ :=
  let d : ℤ := (bitlen q.num.natAbs : ℤ) - (bitlen q.den : ℤ)
  if (2 : ℚ) ^ d ≤ q then d else d - 1

/-- Unit in the last place of a binary64 float near the positive
rational q (53-bit significand, normal range). -/
def ulpOf (q : ℚ) : ℚ := (2 : ℚ) ^ (floorLog2Q q - 52)

/-- Round a rational to the nearest integer, ties to even. -/
def roundTiesEven (x : ℚ) : ℤ :=
  if Int.fract x < (1 / 2 : ℚ) then ⌊x⌋
  else if (1 / 2 : ℚ) < Int.fract x then ⌊x⌋ + 1
  else if ⌊x⌋ % 2 = 0 then ⌊x⌋ else ⌊x⌋ + 1

/-- Round an exact rational to the nearest IEEE-754 binary64 value
(round-to-nearest, ties to even; overflow and subnormals are outside
the range this pipeline ever touches). -/
def roundDouble (q : ℚ) : ℚ :=
  if q = 0 then 0
  else if q < 0 then -(((roundTiesEven ((-q) / ulpOf (-q)) : ℤ) : ℚ) * ulpOf (-q))
  else ((roundTiesEven (q / ulpOf q) : ℤ) : ℚ) * ulpOf q

/-- Python int(x): truncation toward zero. -/
def pyTrunc (q : ℚ) : ℤ := if 0 ≤ q then ⌊q⌋ else -⌊-q⌋

/-- Python true division of two ints, producing a binary64 float. -/
def pyFloatDiv (a b : ℤ) : ℚ := roundDouble ((a : ℚ) / (b : ℚ))

/-- Python multiplication of an int (exactly representable) by a
binary64 float, producing a binary64 float. -/
def pyFloatMul (w : ℤ) (s : ℚ) : ℚ := roundDouble ((w : ℚ) * s)

/-- The binary64 unit roundoff for relative-error bounds. -/
def eps : ℚ := 1 / 2 ^ 53

/-! ## Contours and the two border-detection strategies -/

/-- A contour as observed by the detection code: the cv2-derived
attributes used by the filters (contourArea; the vertex count of the
approxPolyDP polygon at 2 percent of arc length; boundingRect). -/
structure Contour where
  area : ℚ
  approxLen : ℕ
  x : ℤ
  y : ℤ
  w : ℤ
  h : ℤ
deriving DecidableEq

/-- A crop region (x, y, w, h) in source-image pixel coordinates;
the PIL crop box is (x, y, x + w, y + h). -/
structure CropRegion where
  x : ℤ
  y : ℤ
  w : ℤ
  h : ℤ
deriving DecidableEq

/-- aspect_ratio = float(w) / h followed by the 0.6 < ar < 1.5 test;
h = 0 raises ZeroDivisionError, modelled as Except.error. -/
def ratioOK (c : Contour) : Except Unit Bool :=
  if c.h = 0 then Except.error ()
  else
    let ar : ℚ := (c.w : ℚ) / (c.h : ℚ)
    Except.ok (if (0.6 : ℚ) < ar ∧ ar < (1.5 : ℚ) then true else false)

/-- The per-contour acceptance test of Strategy A (adaptive threshold),
shared verbatim by _detect_card_border_v2, _detect_card_border_adaptive:
area in [0.2, 0.95] of the image area, exactly 4 polygon vertices, then
the aspect-ratio band. -/
def passA (imgArea : ℚ) (c : Contour) : Except Unit Bool :=
  if c.area < (0.2 : ℚ) * imgArea ∨ c.area > (0.95 : ℚ) * imgArea then Except.ok false
  else if c.approxLen = 4 then ratioOK c
  else Except.ok false

/-- The per-contour acceptance test of Strategy B
(_detect_card_border_canny): same area band and aspect-ratio band, no
4-corner constraint. -/
def passCanny (imgArea : ℚ) (c : Contour) : Except Unit Bool :=
  if c.area < (0.2 : ℚ) * imgArea ∨ c.area > (0.95 : ℚ) * imgArea then Except.ok false
  else ratioOK c

/-- The contour-filtering loop: build the list of valid contours in
order, aborting with the first raised exception. -/
def filterExcept (p : Contour → Except Unit Bool) : List Contour → Except Unit (List Contour)
  | [] => Except.ok []
  | c :: rest =>
    match p c with
    | Except.error e => Except.error e
    | Except.ok b =>
      match filterExcept p rest with
      | Except.error e => Except.error e
      | Except.ok l => Except.ok (if b then c :: l else l)

/-- Python max(valid, key=area): first element of maximal area. -/
def pickMax (v : Contour) (vs : List Contour) : Contour :=
  vs.foldl (fun m d => if m.area < d.area then d else m) v

/-- Strategy A epilogue: expand the winning bounding box by the fixed
padding = 5 on each side, clamped to the image (x = max(0, x - 5),
w = min(W - x, w + 2 * 5), same for y and h). -/
def padClamp (W H : ℤ) (c : Contour) : CropRegion :=
  let px := max 0 (c.x - 5)
  let py := max 0 (c.y - 5)
  { x := px, y := py, w := min (W - px) (c.w + 2 * 5), h := min (H - py) (c.h + 2 * 5) }

/-- Body of _detect_card_border_canny (inside its try block): the crop
box is the raw bounding box of the largest valid contour, no padding. -/
def detect_card_border_canny_body (W H : ℤ) (cs : List Contour) : Except Unit (Option CropRegion) :=
  if cs = [] then Except.ok none
  else
    match filterExcept (passCanny ((W * H : ℤ) : ℚ)) cs with
    | Except.error e => Except.error e
    | Except.ok [] => Except.ok none
    | Except.ok (v :: vs) =>
      let best := pickMax v vs
      Except.ok (some { x := best.x, y := best.y, w := best.w, h := best.h })

/-- _detect_card_border_canny: its try/except converts any exception
into a None result. -/
def detect_card_border_canny (W H : ℤ) (cs : List Contour) : Option CropRegion :=
  match detect_card_border_canny_body W H cs with
  | Except.ok r => r
  | Except.error _ => none

/-- Body of _detect_card_border_v2 (inside its try block).  The
argument as is the contour list found on the adaptive threshold image,
cs the one found on the dilated Canny edge image. -/
def detect_card_border_v2_body (W H : ℤ) (as cs : List Contour) : Except Unit (Option CropRegion) :=
  if as = [] then Except.ok (detect_card_border_canny W H cs)
  else
    match filterExcept (passA ((W * H : ℤ) : ℚ)) as with
    | Except.error e => Except.error e
    | Except.ok [] => Except.ok (detect_card_border_canny W H cs)
    | Except.ok (v :: vs) => Except.ok (some (padClamp W H (pickMax v vs)))

/-- _detect_card_border_v2: its try/except converts any exception into
a None result (without trying Strategy B). -/
def detect_card_border_v2 (W H : ℤ) (as cs : List Contour) : Option CropRegion :=
  match detect_card_border_v2_body W H as cs with
  | Except.ok r => r
  | Except.error _ => none

/-- Body of _detect_card_border_adaptive (cloudrun/preprocessing.py):
same Strategy A logic, but with no Canny fallback. -/
def detect_card_border_adaptive_body (W H : ℤ) (cs : List Contour) : Except Unit (Option CropRegion) :=
  if cs = [] then Except.ok none
  else
    match filterExcept (passA ((W * H : ℤ) : ℚ)) cs with
    | Except.error e => Except.error e
    | Except.ok [] => Except.ok none
    | Except.ok (v :: vs) => Except.ok (some (padClamp W H (pickMax v vs)))

/-- _detect_card_border_adaptive with its try/except. -/
def detect_card_border_adaptive (W H : ℤ) (cs : List Contour) : Option CropRegion :=
  match detect_card_border_adaptive_body W H cs with
  | Except.ok r => r
  | Except.error _ => none

/-- A crop region that stays inside a W x H source image. -/
def regionInBounds (W H : ℤ) (r : CropRegion) : Prop :=
  0 ≤ r.x ∧ 0 ≤ r.y ∧ r.x + r.w ≤ W ∧ r.y + r.h ≤ H

/-! ## The cloudrun pipeline (preprocess_card_image) -/

/-- An image: dimensions plus an abstract pixel-content token. -/
structure Img where
  width : ℤ
  height : ℤ
  data : ℕ
deriving DecidableEq

/-- _resize_if_needed: if max(width, height) > target, downscale by
scale = target / longest (binary64), with the new sides int(w * scale)
and int(h * scale); otherwise return the image unchanged.  The LANCZOS
resampling of the pixel content is the abstract resample argument. -/
def resize_if_needed (resample : Img → ℤ → ℤ → ℕ) (img : Img) (target : ℤ) : Img :=
  let longest := max img.width img.height
  if longest > target then
    let scale : ℚ := pyFloatDiv target longest
    let neww := pyTrunc (pyFloatMul img.width scale)
    let newh := pyTrunc (pyFloatMul img.height scale)
    { width := neww, height := newh, data := resample img neww newh }
  else img

/-- Step 3 of preprocess_card_image: crop to the detected region, or
keep the full image when detection returned None.  contoursOf abstracts
the cv2 chain up to findContours, cropContent the PIL crop content. -/
def croppedStage (contoursOf : Img → List Contour) (cropContent : Img → CropRegion → ℕ)
    (img : Img) : Img :=
  match detect_card_border_adaptive img.width img.height (contoursOf img) with
  | some r => { width := r.w, height := r.h, data := cropContent img r }
  | none => img

/-- The error that aborts the try block of preprocess_card_image:
the input bytes cannot be decoded as an image. -/
inductive PErr
  | decodeError
deriving DecidableEq

def jpegMime : String := "image/jpeg"

def pngMime : String := "image/png"

/-- Python (mime_type or "image/jpeg"): None and the empty string are
falsy. -/
def pythonOr (m : Option String) (d : String) : String :=
  match m with
  | none => d
  | some s => if s = "" then d else s

/-- The try block of preprocess_card_image: decode (PIL open +
exif_transpose + RGB convert, abstracted as decode), border detect and
crop, enhance (abstract photometric chain enh), resize to 1600, encode
to JPEG quality 95 (abstract enc). -/
def preprocessBody (decode : List ℕ → Option Img) (contoursOf : Img → List Contour)
    (cropContent : Img → CropRegion → ℕ) (enh : Img → Img)
    (resample : Img → ℤ → ℤ → ℕ) (enc : Img → List ℕ)
    (bytes : List ℕ) : Except PErr (List ℕ × String) :=
  match decode bytes with
  | none => Except.error PErr.decodeError
  | some img =>
    let cropped := croppedStage contoursOf cropContent img
    let enhanced := enh cropped
    let resized := resize_if_needed resample enhanced 1600
    Except.ok (enc resized, jpegMime)

/-- preprocess_card_image: the whole body sits in a try/except which
returns (image_bytes, mime_type or "image/jpeg") on any exception. -/
def preprocess_card_image (decode : List ℕ → Option Img) (contoursOf : Img → List Contour)
    (cropContent : Img → CropRegion → ℕ) (enh : Img → Img)
    (resample : Img → ℤ → ℤ → ℕ) (enc : Img → List ℕ)
    (bytes : List ℕ) (mime : Option String) : List ℕ × String :=
  match preprocessBody decode contoursOf cropContent enh resample enc bytes with
  | Except.ok v => v
  | Except.error _ => (bytes, pythonOr mime jpegMime)

/-- The Enhancer + Resizer + Encoder tail of the pipeline applied to an
already-cropped image (steps 4 to 6 of preprocess_card_image). -/
def processChain (enh : Img → Img) (resample : Img → ℤ → ℤ → ℕ)
    (enc : Img → List ℕ) (img : Img) : List ℕ :=
  enc (resize_if_needed resample (enh img) 1600)

/-! ## The thumbnail quality loop (compress_to_jpeg_under_kb) -/

/-- The while loop of compress_to_jpeg_under_kb: encodeQ q abstracts
img.save at JPEG quality q; the loop runs while quality >= 30, returns
the first encoding within budget, keeps the last attempt in best, and
steps quality down by 10. -/
def qualityLoopFrom (encodeQ : ℕ → List ℕ) (budget : ℕ) (orig : List ℕ)
    (q : ℕ) (best : Option (List ℕ)) : List ℕ :=
  if h : 30 ≤ q then
    let out := encodeQ q
    if out.length ≤ budget then out
    else qualityLoopFrom encodeQ budget orig (q - 10) (some out)
  else
    match best with
    | some b => b
    | none => orig
termination_by q
decreasing_by omega

/-- The quality-search portion of compress_to_jpeg_under_kb: budget
max_kb * 1024 bytes, starting quality 85, best initially None. -/
def compress_quality_loop (encodeQ : ℕ → List ℕ) (maxKb : ℕ) (orig : List ℕ) : List ℕ :=
  qualityLoopFrom encodeQ (maxKb * 1024) orig 85 none

/-- The qualities the loop attempts when started at q. -/
def attemptedQualities (q : ℕ) : List ℕ :=
  if h : 30 ≤ q then q :: attemptedQualities (q - 10) else []
termination_by q
decreasing_by omega

/-! ## Groundwork lemmas for the binary64 model -/

theorem two_zpow_pos (n : ℤ) : (0 : ℚ) < 2 ^ n := zpow_pos (by norm_num) n

theorem eps_pos : 0 < eps := by norm_num [eps]

theorem eps_lt_one : eps < 1 := by norm_num [eps]

theorem zpow_neg53_eq_eps : (2 : ℚ) ^ (-53 : ℤ) = eps := by
  rw [eps]
  norm_num

theorem bitlenAux_zero (f : ℕ) : bitlenAux f 0 = 0 := by
  cases f <;> simp [bitlenAux]

theorem bitlenAux_spec : ∀ f n : ℕ, n ≤ f → n ≠ 0 →
    2 ^ (bitlenAux f n - 1) ≤ n ∧ n < 2 ^ bitlenAux f n := by
  intro f
  induction f with
  | zero => intro n h1 h2; omega
  | succ f ih =>
    intro n h1 h2
    rw [bitlenAux, if_neg h2]
    by_cases hn2 : n / 2 = 0
    · have hn1 : n = 1 := by omega
      rw [hn2, bitlenAux_zero]
      subst hn1
      norm_num
    · have hle : n / 2 ≤ f := by omega
      obtain ⟨ihl, ihu⟩ := ih (n / 2) hle hn2
      have hL1 : 1 ≤ bitlenAux f (n / 2) := by
        by_contra hcon
        have h0 : bitlenAux f (n / 2) = 0 := by omega
        rw [h0] at ihu
        simp at ihu
        omega
      set L := bitlenAux f (n / 2) with hLdef
      have hpow1 : (2 : ℕ) ^ L = 2 * 2 ^ (L - 1) := by
        conv_lhs => rw [show L = (L - 1) + 1 by omega]
        ring
      have hpow2 : (2 : ℕ) ^ (L + 1) = 2 * 2 ^ L := by ring
      constructor
      · have : 2 ^ (L + 1 - 1) = 2 * 2 ^ (L - 1) := by
          rw [show L + 1 - 1 = L by omega, hpow1]
        rw [this]
        omega
      · rw [hpow2]
        omega

theorem bitlen_spec (n : ℕ) (hn : n ≠ 0) :
    2 ^ (bitlen n - 1) ≤ n ∧ n < 2 ^ bitlen n :=
  bitlenAux_spec n n le_rfl hn

theorem bitlen_pos (n : ℕ) (hn : n ≠ 0) : 1 ≤ bitlen n := by
  obtain ⟨h1, h2⟩ := bitlen_spec n hn
  by_contra hcon
  have h0 : bitlen n = 0 := by omega
  rw [h0] at h2
  simp at h2
  omega

theorem cast_two_pow (k : ℕ) : ((2 ^ k : ℕ) : ℚ) = (2 : ℚ) ^ (k : ℤ) := by
  push_cast
  rw [zpow_natCast]

theorem floorLog2Q_spec (q : ℚ) (hq : 0 < q) :
    (2 : ℚ) ^ floorLog2Q q ≤ q ∧ q < (2 : ℚ) ^ (floorLog2Q q + 1) := by
  have hnum : 0 < q.num := Rat.num_pos.mpr hq
  have ha : q.num.natAbs ≠ 0 := Int.natAbs_ne_zero.mpr hnum.ne'
  have hb : q.den ≠ 0 := q.den_nz
  obtain ⟨ha1, ha2⟩ := bitlen_spec _ ha
  obtain ⟨hb1, hb2⟩ := bitlen_spec _ hb
  have hla := bitlen_pos _ ha
  have hlb := bitlen_pos _ hb
  set la := bitlen q.num.natAbs with hladef
  set lb := bitlen q.den with hlbdef
  have hdenpos : (0 : ℚ) < (q.den : ℚ) := by
    exact_mod_cast Nat.pos_of_ne_zero hb
  have hnumQ : ((q.num.natAbs : ℚ)) = (q.num : ℚ) := by
    rw [Int.cast_natAbs]
    exact_mod_cast abs_of_pos hnum
  have hq_eq : q = (q.num.natAbs : ℚ) / (q.den : ℚ) := by
    rw [hnumQ, Rat.num_div_den]
  have hA1 : (2 : ℚ) ^ ((la : ℤ) - 1) ≤ (q.num.natAbs : ℚ) := by
    have : ((2 ^ (la - 1) : ℕ) : ℚ) ≤ (q.num.natAbs : ℚ) := by exact_mod_cast ha1
    rw [cast_two_pow] at this
    rwa [show ((la - 1 : ℕ) : ℤ) = (la : ℤ) - 1 by omega] at this
  have hA2 : (q.num.natAbs : ℚ) < (2 : ℚ) ^ (la : ℤ) := by
    have : (q.num.natAbs : ℚ) < ((2 ^ la : ℕ) : ℚ) := by exact_mod_cast ha2
    rwa [cast_two_pow] at this
  have hB1 : (2 : ℚ) ^ ((lb : ℤ) - 1) ≤ (q.den : ℚ) := by
    have : ((2 ^ (lb - 1) : ℕ) : ℚ) ≤ (q.den : ℚ) := by exact_mod_cast hb1
    rw [cast_two_pow] at this
    rwa [show ((lb - 1 : ℕ) : ℤ) = (lb : ℤ) - 1 by omega] at this
  have hB2 : (q.den : ℚ) < (2 : ℚ) ^ (lb : ℤ) := by
    have : (q.den : ℚ) < ((2 ^ lb : ℕ) : ℚ) := by exact_mod_cast hb2
    rwa [cast_two_pow] at this
  have low : (2 : ℚ) ^ ((la : ℤ) - 1 - (lb : ℤ)) ≤ q := by
    have hdiv : (2 : ℚ) ^ ((la : ℤ) - 1) / (2 : ℚ) ^ (lb : ℤ) ≤ q := by
      rw [hq_eq]
      exact div_le_div₀ (by positivity) hA1 hdenpos hB2.le
    rwa [← zpow_sub₀ (by norm_num : (2 : ℚ) ≠ 0)] at hdiv
  have high : q < (2 : ℚ) ^ ((la : ℤ) - (lb : ℤ) + 1) := by
    have hdiv : q < (2 : ℚ) ^ (la : ℤ) / (2 : ℚ) ^ ((lb : ℤ) - 1) := by
      rw [hq_eq]
      exact div_lt_div₀ hA2 hB1 (by positivity) (two_zpow_pos _)
    rwa [← zpow_sub₀ (by norm_num : (2 : ℚ) ≠ 0),
      show (la : ℤ) - ((lb : ℤ) - 1) = (la : ℤ) - (lb : ℤ) + 1 by ring] at hdiv
  rw [floorLog2Q]
  by_cases hif : (2 : ℚ) ^ ((bitlen q.num.natAbs : ℤ) - (bitlen q.den : ℤ)) ≤ q
  · simp only [if_pos hif]
    exact ⟨hif, high⟩
  · simp only [if_neg hif]
    constructor
    · rwa [show (la : ℤ) - (lb : ℤ) - 1 = (la : ℤ) - 1 - (lb : ℤ) by ring]
    · rw [show (la : ℤ) - (lb : ℤ) - 1 + 1 = (la : ℤ) - (lb : ℤ) by ring]
      exact lt_of_not_le hif

theorem floorLog2Q_eq (q : ℚ) (e : ℤ) (hq : 0 < q)
    (h1 : (2 : ℚ) ^ e ≤ q) (h2 : q < (2 : ℚ) ^ (e + 1)) :
    floorLog2Q q = e := by
  obtain ⟨s1, s2⟩ := floorLog2Q_spec q hq
  by_contra hne
  rcases lt_or_gt_of_ne hne with hlt | hgt
  · have : (2 : ℚ) ^ (floorLog2Q q + 1) ≤ (2 : ℚ) ^ e :=
      zpow_le_zpow_right₀ (by norm_num) (by omega)
    linarith
  · have : (2 : ℚ) ^ (e + 1) ≤ (2 : ℚ) ^ floorLog2Q q :=
      zpow_le_zpow_right₀ (by norm_num) (by omega)
    linarith

theorem roundTiesEven_close (x : ℚ) : |(roundTiesEven x : ℚ) - x| ≤ 1 / 2 := by
  have hf : (⌊x⌋ : ℚ) + Int.fract x = x := Int.floor_add_fract x
  have h0 : 0 ≤ Int.fract x := Int.fract_nonneg x
  have h1 : Int.fract x < 1 := Int.fract_lt_one x
  rw [roundTiesEven]
  split_ifs with hA hB hC <;> rw [abs_le] <;> constructor <;> push_cast <;> linarith

theorem roundTiesEven_eq_down (x : ℚ) (n : ℤ) (h1 : (n : ℚ) ≤ x) (h2 : x < (n : ℚ) + 1 / 2) :
    roundTiesEven x = n := by
  have hfl : ⌊x⌋ = n := Int.floor_eq_iff.mpr ⟨h1, by linarith⟩
  have hfr : Int.fract x < 1 / 2 := by
    have := Int.floor_add_fract x
    rw [hfl] at this
    linarith
  rw [roundTiesEven, if_pos hfr, hfl]

theorem roundTiesEven_eq_up (x : ℚ) (n : ℤ) (h1 : (n : ℚ) + 1 / 2 < x) (h2 : x < (n : ℚ) + 1) :
    roundTiesEven x = n + 1 := by
  have hfl : ⌊x⌋ = n := Int.floor_eq_iff.mpr ⟨by linarith, h2⟩
  have hfr : 1 / 2 < Int.fract x := by
    have := Int.floor_add_fract x
    rw [hfl] at this
    linarith
  rw [roundTiesEven, if_neg (by linarith), if_pos hfr, hfl]

theorem roundDouble_eval (q : ℚ) (e n : ℤ) (hq : 0 < q)
    (h1 : (2 : ℚ) ^ e ≤ q) (h2 : q < (2 : ℚ) ^ (e + 1))
    (h3 : roundTiesEven (q / (2 : ℚ) ^ (e - 52)) = n) :
    roundDouble q = (n : ℚ) * (2 : ℚ) ^ (e - 52) := by
  have hfl : floorLog2Q q = e := floorLog2Q_eq q e hq h1 h2
  have hu : ulpOf q = (2 : ℚ) ^ (e - 52) := by rw [ulpOf, hfl]
  rw [roundDouble, if_neg hq.ne', if_neg (not_lt.mpr hq.le), hu, h3]

theorem roundDouble_zero : roundDouble 0 = 0 := by
  rw [roundDouble, if_pos rfl]

theorem roundDouble_close (q : ℚ) (hq : 0 < q) : |roundDouble q - q| ≤ q * eps := by
  obtain ⟨s1, s2⟩ := floorLog2Q_spec q hq
  set e := floorLog2Q q with hedef
  have hu : ulpOf q = (2 : ℚ) ^ (e - 52) := by rw [ulpOf]
  have hupos : (0 : ℚ) < (2 : ℚ) ^ (e - 52) := two_zpow_pos _
  have hx : q / (2 : ℚ) ^ (e - 52) * (2 : ℚ) ^ (e - 52) = q := div_mul_cancel₀ _ hupos.ne'
  have hclose := roundTiesEven_close (q / (2 : ℚ) ^ (e - 52))
  rw [roundDouble, if_neg hq.ne', if_neg (not_lt.mpr hq.le), hu]
  have step0 : (roundTiesEven (q / (2 : ℚ) ^ (e - 52)) : ℚ) * (2 : ℚ) ^ (e - 52) - q
      = ((roundTiesEven (q / (2 : ℚ) ^ (e - 52)) : ℚ) - q / (2 : ℚ) ^ (e - 52)) * (2 : ℚ) ^ (e - 52) := by
    rw [sub_mul, hx]
  rw [step0, abs_mul, abs_of_pos hupos]
  have step2 : |(roundTiesEven (q / (2 : ℚ) ^ (e - 52)) : ℚ) - q / (2 : ℚ) ^ (e - 52)| * (2 : ℚ) ^ (e - 52)
      ≤ 1 / 2 * (2 : ℚ) ^ (e - 52) :=
    mul_le_mul_of_nonneg_right hclose hupos.le
  have step3 : (1 : ℚ) / 2 * (2 : ℚ) ^ (e - 52) = (2 : ℚ) ^ e * (2 : ℚ) ^ (-53 : ℤ) := by
    rw [← zpow_add₀ (by norm_num : (2 : ℚ) ≠ 0)]
    rw [show (1 : ℚ) / 2 = (2 : ℚ) ^ (-1 : ℤ) by norm_num]
    rw [← zpow_add₀ (by norm_num : (2 : ℚ) ≠ 0)]
    congr 1
    ring
  have step4 : (2 : ℚ) ^ e * (2 : ℚ) ^ (-53 : ℤ) ≤ q * (2 : ℚ) ^ (-53 : ℤ) :=
    mul_le_mul_of_nonneg_right s1 (two_zpow_pos _).le
  rw [zpow_neg53_eq_eps] at step4
  rw [zpow_neg53_eq_eps] at step3
  linarith

theorem roundDouble_ge (q : ℚ) (hq : 0 < q) : q * (1 - eps) ≤ roundDouble q := by
  have := roundDouble_close q hq
  rw [abs_le] at this
  nlinarith [this.1]

theorem roundDouble_le (q : ℚ) (hq : 0 < q) : roundDouble q ≤ q * (1 + eps) := by
  have := roundDouble_close q hq
  rw [abs_le] at this
  nlinarith [this.2]

theorem roundDouble_pos (q : ℚ) (hq : 0 < q) : 0 < roundDouble q := by
  have h := roundDouble_ge q hq
  nlinarith [eps_lt_one, eps_pos]

theorem pyTrunc_nonneg (q : ℚ) (h : 0 ≤ q) : 0 ≤ pyTrunc q := by
  rw [pyTrunc, if_pos h]
  exact Int.le_floor.mpr (by exact_mod_cast h)

theorem pyTrunc_le (q : ℚ) (t : ℤ) (h0 : 0 ≤ q) (h : q < (t : ℚ) + 1) : pyTrunc q ≤ t := by
  rw [pyTrunc, if_pos h0]
  have : ⌊q⌋ < t + 1 := Int.floor_lt.mpr (by push_cast; linarith)
  omega

theorem pyTrunc_ge (q : ℚ) (t : ℤ) (h0 : 0 ≤ q) (h : (t : ℚ) ≤ q) : t ≤ pyTrunc q := by
  rw [pyTrunc, if_pos h0]
  exact Int.le_floor.mpr h

/-- Error analysis of one scaled side of the resizer: with scale the
binary64 value of t / L and s a side with 0 ≤ s ≤ L, the truncated
scaled side int(s * scale) is between 0 and t, and equals t - 1 or t
for the longest side s = L. -/
theorem scaledSideBounds (t L s : ℤ) (ht1 : 1 ≤ t) (ht2 : t ≤ 2 ^ 50) (hlt : t < L)
    (hs0 : 0 ≤ s) (hsL : s ≤ L) :
    0 ≤ pyTrunc (pyFloatMul s (pyFloatDiv t L)) ∧
    pyTrunc (pyFloatMul s (pyFloatDiv t L)) ≤ t ∧
    (s = L → t - 1 ≤ pyTrunc (pyFloatMul s (pyFloatDiv t L))) := by
  have hL0 : (0 : ℚ) < (L : ℚ) := by exact_mod_cast (by omega : (0 : ℤ) < L)
  have ht0 : (0 : ℚ) < (t : ℚ) := by exact_mod_cast (by omega : (0 : ℤ) < t)
  have htQ : (t : ℚ) ≤ (2 : ℚ) ^ 50 := by exact_mod_cast ht2
  have hteps : (t : ℚ) * eps ≤ 1 / 8 := by
    calc (t : ℚ) * eps ≤ (2 : ℚ) ^ 50 * eps := mul_le_mul_of_nonneg_right htQ eps_pos.le
    _ ≤ 1 / 8 := by norm_num [eps]
  have hteps2 : (t : ℚ) * eps * eps ≤ 1 / 8 := by
    nlinarith [eps_pos, eps_lt_one, hteps]
  have htepsnn : 0 ≤ (t : ℚ) * eps * eps :=
    mul_nonneg (mul_nonneg ht0.le eps_pos.le) eps_pos.le
  have hq0 : (0 : ℚ) < (t : ℚ) / (L : ℚ) := div_pos ht0 hL0
  have hS_lb := roundDouble_ge _ hq0
  have hS_ub := roundDouble_le _ hq0
  have hSpos := roundDouble_pos _ hq0
  have hLq0 : (L : ℚ) * ((t : ℚ) / (L : ℚ)) = (t : ℚ) := by
    field_simp
  have hscale : pyFloatDiv t L = roundDouble ((t : ℚ) / (L : ℚ)) := rfl
  rcases eq_or_lt_of_le hs0 with hszero | hspos
  · have hs : s = 0 := hszero.symm
    subst hs
    have hmul : pyFloatMul 0 (pyFloatDiv t L) = 0 := by
      rw [pyFloatMul]
      norm_num [roundDouble_zero]
    rw [hmul]
    have htr : pyTrunc 0 = 0 := by
      rw [pyTrunc, if_pos le_rfl]
      simp
    rw [htr]
    refine ⟨le_rfl, by omega, ?_⟩
    intro hEq
    omega
  · have hsQ : (0 : ℚ) < (s : ℚ) := by exact_mod_cast hspos
    have hsLQ : (s : ℚ) ≤ (L : ℚ) := by exact_mod_cast hsL
    set S := roundDouble ((t : ℚ) / (L : ℚ)) with hSdef
    have hP0pos : 0 < (s : ℚ) * S := mul_pos hsQ hSpos
    have hmul : pyFloatMul s (pyFloatDiv t L) = roundDouble ((s : ℚ) * S) := by
      rw [pyFloatMul, hscale]
    have hP_lb := roundDouble_ge _ hP0pos
    have hP_ub := roundDouble_le _ hP0pos
    have hPpos := roundDouble_pos _ hP0pos
    -- upper chain: s*S ≤ L*S ≤ t*(1+eps)
    have hLS : (s : ℚ) * S ≤ (L : ℚ) * S := mul_le_mul_of_nonneg_right hsLQ hSpos.le
    have hLS2 : (L : ℚ) * S ≤ (t : ℚ) * (1 + eps) := by
      have := mul_le_mul_of_nonneg_left hS_ub hL0.le
      rwa [← mul_assoc, hLq0] at this
    have hP_ub2 : roundDouble ((s : ℚ) * S) ≤ (t : ℚ) * (1 + eps) * (1 + eps) := by
      calc roundDouble ((s : ℚ) * S) ≤ (s : ℚ) * S * (1 + eps) := hP_ub
      _ ≤ (t : ℚ) * (1 + eps) * (1 + eps) := by
        have h1eps : (0 : ℚ) ≤ 1 + eps := by nlinarith [eps_pos]
        exact mul_le_mul_of_nonneg_right (le_trans hLS hLS2) h1eps
    have hPlt : roundDouble ((s : ℚ) * S) < (t : ℚ) + 1 := by
      nlinarith [hP_ub2, hteps, hteps2, eps_pos]
    rw [hmul]
    refine ⟨pyTrunc_nonneg _ hPpos.le, pyTrunc_le _ t hPpos.le hPlt, ?_⟩
    intro hsl
    subst hsl
    have hP0_lb : (t : ℚ) * (1 - eps) ≤ (s : ℚ) * S := by
      have := mul_le_mul_of_nonneg_left hS_lb hL0.le
      rwa [← mul_assoc, hLq0] at this
    have hP_lb2 : (t : ℚ) * (1 - eps) * (1 - eps) ≤ roundDouble ((s : ℚ) * S) := by
      calc (t : ℚ) * (1 - eps) * (1 - eps)
          ≤ (s : ℚ) * S * (1 - eps) := by
            have h1eps : (0 : ℚ) ≤ 1 - eps := by nlinarith [eps_lt_one]
            exact mul_le_mul_of_nonneg_right hP0_lb h1eps
      _ ≤ roundDouble ((s : ℚ) * S) := hP_lb
    have hPgt : ((t - 1 : ℤ) : ℚ) ≤ roundDouble ((s : ℚ) * S) := by
      push_cast
      nlinarith [hP_lb2, hteps, htepsnn, eps_pos]
    exact pyTrunc_ge _ (t - 1) hPpos.le hPgt

/-! ## Concrete binary64 evaluations for the resize counterexample -/

theorem scale_eval : pyFloatDiv 1600 2156 = (6684377925596283 : ℚ) / 2 ^ 53 := by
  have h0 : ((1600 : ℤ) : ℚ) / ((2156 : ℤ) : ℚ) = (400 / 539 : ℚ) := by norm_num
  have hrte : roundTiesEven ((400 / 539 : ℚ) / (2 : ℚ) ^ ((-1 : ℤ) - 52)) = 6684377925596283 := by
    apply roundTiesEven_eq_down
    · push_cast
      norm_num
    · push_cast
      norm_num
  have h := roundDouble_eval (400 / 539 : ℚ) (-1) 6684377925596283 (by norm_num)
    (by norm_num) (by norm_num) hrte
  rw [pyFloatDiv, h0, h]
  norm_num

theorem widthProd_eval :
    pyFloatMul 2156 (pyFloatDiv 1600 2156) = (7036874417766399 : ℚ) / 2 ^ 42 := by
  rw [pyFloatMul, scale_eval]
  have h0 : ((2156 : ℤ) : ℚ) * ((6684377925596283 : ℚ) / 2 ^ 53)
      = (14411518807585586148 : ℚ) / 2 ^ 53 := by push_cast; ring
  have hrte : roundTiesEven (((14411518807585586148 : ℚ) / 2 ^ 53) / (2 : ℚ) ^ ((10 : ℤ) - 52)) =
      7036874417766399 := by
    apply roundTiesEven_eq_down
    · push_cast
      norm_num
    · push_cast
      norm_num
  have h := roundDouble_eval ((14411518807585586148 : ℚ) / 2 ^ 53) 10 7036874417766399
    (by norm_num) (by norm_num) (by norm_num) hrte
  rw [h0, h]
  norm_num

theorem heightProd_eval :
    pyFloatMul 1000 (pyFloatDiv 1600 2156) = (6527712817965120 : ℚ) / 2 ^ 43 := by
  rw [pyFloatMul, scale_eval]
  have h0 : ((1000 : ℤ) : ℚ) * ((6684377925596283 : ℚ) / 2 ^ 53)
      = (6684377925596283000 : ℚ) / 2 ^ 53 := by push_cast; ring
  have hrte : roundTiesEven (((6684377925596283000 : ℚ) / 2 ^ 53) / (2 : ℚ) ^ ((9 : ℤ) - 52)) =
      6527712817965120 := by
    apply roundTiesEven_eq_down
    · push_cast
      norm_num
    · push_cast
      norm_num
  have h := roundDouble_eval ((6684377925596283000 : ℚ) / 2 ^ 53) 9 6527712817965120
    (by norm_num) (by norm_num) (by norm_num) hrte
  rw [h0, h]
  norm_num

theorem widthTrunc_eval : pyTrunc ((7036874417766399 : ℚ) / 2 ^ 42) = 1599 := by
  rw [pyTrunc, if_pos (by norm_num)]
  apply Int.floor_eq_iff.mpr
  constructor <;> push_cast <;> norm_num

theorem heightTrunc_eval : pyTrunc ((6527712817965120 : ℚ) / 2 ^ 43) = 742 := by
  rw [pyTrunc, if_pos (by norm_num)]
  apply Int.floor_eq_iff.mpr
  constructor <;> push_cast <;> norm_num

/-! ## Claim C8: the resizer -/

/--
C8 (amended): for every image with nonnegative dimensions and a target
ceiling in the sane range 1 ≤ target ≤ 2^50, _resize_if_needed
downscales exactly when max(width, height) > target; in that case the
new sides are int(width * scale) and int(height * scale) with scale the
binary64 value of target / longest, and the resulting longest side is
target or target - 1 (one pixel short of target is possible because of
binary64 rounding); otherwise the image passes through unchanged.  It
never upscales: the output longest side never exceeds
max(target, input longest side).
-/
theorem C8_resize_bounds (resample : Img → ℤ → ℤ → ℕ) (img : Img) (target : ℤ)
    (hw : 0 ≤ img.width) (hh : 0 ≤ img.height) (ht1 : 1 ≤ target) (ht2 : target ≤ 2 ^ 50) :
    (target < max img.width img.height →
      target - 1 ≤ max (resize_if_needed resample img target).width
          (resize_if_needed resample img target).height ∧
      max (resize_if_needed resample img target).width
          (resize_if_needed resample img target).height ≤ target ∧
      (resize_if_needed resample img target).width
        = pyTrunc (pyFloatMul img.width (pyFloatDiv target (max img.width img.height))) ∧
      (resize_if_needed resample img target).height
        = pyTrunc (pyFloatMul img.height (pyFloatDiv target (max img.width img.height)))) ∧
    (max img.width img.height ≤ target → resize_if_needed resample img target = img) ∧
    max (resize_if_needed resample img target).width (resize_if_needed resample img target).height
      ≤ max target (max img.width img.height) := by
  by_cases htrig : max img.width img.height > target
  · have hres : resize_if_needed resample img target =
        { width := pyTrunc (pyFloatMul img.width (pyFloatDiv target (max img.width img.height))),
          height := pyTrunc (pyFloatMul img.height (pyFloatDiv target (max img.width img.height))),
          data := resample img
            (pyTrunc (pyFloatMul img.width (pyFloatDiv target (max img.width img.height))))
            (pyTrunc (pyFloatMul img.height (pyFloatDiv target (max img.width img.height)))) } := by
      simp only [resize_if_needed]
      rw [if_pos htrig]
    obtain ⟨wlo, whi, wtop⟩ := scaledSideBounds target (max img.width img.height) img.width
      ht1 ht2 htrig hw (le_max_left _ _)
    obtain ⟨hlo, hhi, htop⟩ := scaledSideBounds target (max img.width img.height) img.height
      ht1 ht2 htrig hh (le_max_right _ _)
    refine ⟨fun _ => ?_, fun hcon => absurd hcon (not_le.mpr htrig), ?_⟩
    · rw [hres]
      refine ⟨?_, by simp; omega, rfl, rfl⟩
      rcases max_choice img.width img.height with hm | hm
      · have := wtop hm.symm
        simp only []
        omega
      · have := htop hm.symm
        simp only []
        omega
    · rw [hres]
      simp only []
      omega
  · push_neg at htrig
    have hres : resize_if_needed resample img target = img := by
      simp only [resize_if_needed]
      rw [if_neg (not_lt.mpr htrig)]
    refine ⟨fun hcon => absurd hcon (not_lt.mpr htrig), fun _ => hres, ?_⟩
    rw [hres]
    omega

/-- Witness for C8_resize_bounds at a 3200 x 1600 image with target
1600: the resized longest side is 1599 or 1600. -/
theorem C8_resize_bounds_witness :
    1600 - 1 ≤ max (resize_if_needed (fun _ _ _ => 0)
        { width := 3200, height := 1600, data := 0 } 1600).width
      (resize_if_needed (fun _ _ _ => 0)
        { width := 3200, height := 1600, data := 0 } 1600).height ∧
    max (resize_if_needed (fun _ _ _ => 0)
        { width := 3200, height := 1600, data := 0 } 1600).width
      (resize_if_needed (fun _ _ _ => 0)
        { width := 3200, height := 1600, data := 0 } 1600).height ≤ 1600 := by
  have h := C8_resize_bounds (fun _ _ _ => 0) { width := 3200, height := 1600, data := 0 } 1600
    (by decide) (by decide) (by decide) (by decide)
  exact ⟨(h.1 (by decide)).1, (h.1 (by decide)).2.1⟩

/-- Counterexample to C8 as stated: on a 2156 x 1000 input with target
1600, the code resizes to 1599 x 742 (binary64 rounding makes
int(2156 * (1600 / 2156)) equal to 1599), so the longest side does not
equal the target. -/
theorem C8_counterexample :
    resize_if_needed (fun _ _ _ => 0) { width := 2156, height := 1000, data := 0 } 1600
      = { width := 1599, height := 742, data := 0 } ∧
    max (resize_if_needed (fun _ _ _ => 0)
        { width := 2156, height := 1000, data := 0 } 1600).width
      (resize_if_needed (fun _ _ _ => 0)
        { width := 2156, height := 1000, data := 0 } 1600).height = 1599 ∧
    ((1599 : ℤ) == 1600) = false := by
  have hres : resize_if_needed (fun _ _ _ => 0) { width := 2156, height := 1000, data := 0 } 1600
      = { width := 1599, height := 742, data := 0 } := by
    simp only [resize_if_needed]
    rw [if_pos (by decide : max (2156 : ℤ) 1000 > 1600)]
    rw [show max (2156 : ℤ) 1000 = 2156 from by decide]
    rw [widthProd_eval, heightProd_eval, widthTrunc_eval, heightTrunc_eval]
  refine ⟨hres, ?_, by decide⟩
  rw [hres]
  decide

/-! ## Structural lemmas for the border detectors -/

theorem foldl_pickMax_mem : ∀ (vs : List Contour) (v : Contour),
    vs.foldl (fun m d => if m.area < d.area then d else m) v ∈ v :: vs := by
  intro vs
  induction vs with
  | nil => intro v; simp
  | cons d tl ih =>
    intro v
    rw [List.foldl_cons]
    by_cases hvd : v.area < d.area
    · rw [if_pos hvd]
      rcases List.mem_cons.mp (ih d) with h | h
      · rw [h]
        simp
      · exact List.mem_cons_of_mem _ (List.mem_cons_of_mem _ h)
    · rw [if_neg hvd]
      rcases List.mem_cons.mp (ih v) with h | h
      · rw [h]
        simp
      · exact List.mem_cons_of_mem _ (List.mem_cons_of_mem _ h)

theorem pickMax_mem (v : Contour) (vs : List Contour) : pickMax v vs ∈ v :: vs :=
  foldl_pickMax_mem vs v

theorem filterExcept_subset (p : Contour → Except Unit Bool) :
    ∀ (l v : List Contour), filterExcept p l = Except.ok v → ∀ c ∈ v, c ∈ l := by
  intro l
  induction l with
  | nil =>
    intro v h c hc
    simp only [filterExcept, Except.ok.injEq] at h
    subst h
    simp at hc
  | cons a rest ih =>
    intro v h c hc
    cases hpa : p a with
    | error e =>
      simp only [filterExcept, hpa] at h
      exact Except.noConfusion h
    | ok b =>
      cases hrec : filterExcept p rest with
      | error e =>
        simp only [filterExcept, hpa, hrec] at h
        exact Except.noConfusion h
      | ok l2 =>
        simp only [filterExcept, hpa, hrec, Except.ok.injEq] at h
        subst h
        cases b with
        | true =>
          have hc2 : c ∈ a :: l2 := by simpa using hc
          rcases List.mem_cons.mp hc2 with hca | hcl
          · exact hca ▸ List.mem_cons_self a rest
          · exact List.mem_cons_of_mem a (ih l2 hrec c hcl)
        | false =>
          have hc2 : c ∈ l2 := by simpa using hc
          exact List.mem_cons_of_mem a (ih l2 hrec c hc2)

theorem canny_nil (W H : ℤ) : detect_card_border_canny W H [] = none := rfl

/-- Exhaustive outcomes of _detect_card_border_canny. -/
theorem canny_cases (W H : ℤ) (cs : List Contour) :
    detect_card_border_canny W H cs = none ∨
    (∃ v vs, filterExcept (passCanny ((W * H : ℤ) : ℚ)) cs = Except.ok (v :: vs) ∧
      detect_card_border_canny W H cs = some
        { x := (pickMax v vs).x, y := (pickMax v vs).y,
          w := (pickMax v vs).w, h := (pickMax v vs).h }) := by
  by_cases hcs : cs = []
  · left
    subst hcs
    rfl
  · cases hf : filterExcept (passCanny ((W * H : ℤ) : ℚ)) cs with
    | error e =>
      left
      rw [detect_card_border_canny]
      simp only [detect_card_border_canny_body, if_neg hcs, hf]
    | ok l =>
      cases l with
      | nil =>
        left
        rw [detect_card_border_canny]
        simp only [detect_card_border_canny_body, if_neg hcs, hf]
      | cons v vs =>
        right
        refine ⟨v, vs, rfl, ?_⟩
        rw [detect_card_border_canny]
        simp only [detect_card_border_canny_body, if_neg hcs, hf]

/-- A some-result of Strategy B is the raw bounding box of one of the
input contours. -/
theorem canny_some_raw (W H : ℤ) (cs : List Contour) (r : CropRegion)
    (h : detect_card_border_canny W H cs = some r) :
    ∃ c, c ∈ cs ∧ r = { x := c.x, y := c.y, w := c.w, h := c.h } := by
  rcases canny_cases W H cs with hn | ⟨v, vs, hf, hs⟩
  · rw [hn] at h
    exact absurd h (by simp)
  · rw [hs] at h
    refine ⟨pickMax v vs, filterExcept_subset _ cs (v :: vs) hf _ (pickMax_mem v vs), ?_⟩
    injection h with h2
    exact h2.symm

/-- Exhaustive outcomes of _detect_card_border_v2. -/
theorem v2_cases (W H : ℤ) (as cs : List Contour) :
    (as = [] ∧ detect_card_border_v2 W H as cs = detect_card_border_canny W H cs) ∨
    (∃ e, filterExcept (passA ((W * H : ℤ) : ℚ)) as = Except.error e ∧
      detect_card_border_v2 W H as cs = none) ∨
    (filterExcept (passA ((W * H : ℤ) : ℚ)) as = Except.ok [] ∧
      detect_card_border_v2 W H as cs = detect_card_border_canny W H cs) ∨
    (∃ v vs, filterExcept (passA ((W * H : ℤ) : ℚ)) as = Except.ok (v :: vs) ∧
      detect_card_border_v2 W H as cs = some (padClamp W H (pickMax v vs))) := by
  by_cases has : as = []
  · left
    refine ⟨has, ?_⟩
    rw [detect_card_border_v2]
    simp only [detect_card_border_v2_body, if_pos has]
  · cases hf : filterExcept (passA ((W * H : ℤ) : ℚ)) as with
    | error e =>
      right; left
      refine ⟨e, rfl, ?_⟩
      rw [detect_card_border_v2]
      simp only [detect_card_border_v2_body, if_neg has, hf]
    | ok l =>
      cases l with
      | nil =>
        right; right; left
        refine ⟨rfl, ?_⟩
        rw [detect_card_border_v2]
        simp only [detect_card_border_v2_body, if_neg has, hf]
      | cons v vs =>
        right; right; right
        refine ⟨v, vs, rfl, ?_⟩
        rw [detect_card_border_v2]
        simp only [detect_card_border_v2_body, if_neg has, hf]

/-- Exhaustive outcomes of _detect_card_border_adaptive. -/
theorem adaptive_cases (W H : ℤ) (cs : List Contour) :
    (cs = [] ∧ detect_card_border_adaptive W H cs = none) ∨
    (∃ e, filterExcept (passA ((W * H : ℤ) : ℚ)) cs = Except.error e ∧
      detect_card_border_adaptive W H cs = none) ∨
    (filterExcept (passA ((W * H : ℤ) : ℚ)) cs = Except.ok [] ∧
      detect_card_border_adaptive W H cs = none) ∨
    (∃ v vs, filterExcept (passA ((W * H : ℤ) : ℚ)) cs = Except.ok (v :: vs) ∧
      detect_card_border_adaptive W H cs = some (padClamp W H (pickMax v vs))) := by
  by_cases hcs : cs = []
  · left
    refine ⟨hcs, ?_⟩
    rw [detect_card_border_adaptive]
    simp only [detect_card_border_adaptive_body, if_pos hcs]
  · cases hf : filterExcept (passA ((W * H : ℤ) : ℚ)) cs with
    | error e =>
      right; left
      refine ⟨e, rfl, ?_⟩
      rw [detect_card_border_adaptive]
      simp only [detect_card_border_adaptive_body, if_neg hcs, hf]
    | ok l =>
      cases l with
      | nil =>
        right; right; left
        refine ⟨rfl, ?_⟩
        rw [detect_card_border_adaptive]
        simp only [detect_card_border_adaptive_body, if_neg hcs, hf]
      | cons v vs =>
        right; right; right
        refine ⟨v, vs, rfl, ?_⟩
        rw [detect_card_border_adaptive]
        simp only [detect_card_border_adaptive_body, if_neg hcs, hf]

/-- The padded and clamped Strategy A crop region always stays inside
the image. -/
theorem padClamp_inBounds (W H : ℤ) (c : Contour) :
    regionInBounds W H (padClamp W H c) := by
  simp only [padClamp, regionInBounds]
  refine ⟨?_, ?_, ?_, ?_⟩ <;> omega

/-! ## Claim C2: fallthrough from Strategy A to Strategy B -/

/--
C2: whenever Strategy A of _detect_card_border_v2 produces no surviving
candidate (either findContours returned no contours, or the filter loop
completed with an empty valid list), the detector returns exactly the
result of Strategy B (_detect_card_border_canny); and if Strategy B
also finds nothing (e.g. on an all-uniform image both contour lists are
empty), the result is the no-border-found value none — the detector is
a total function into Option, so no exception escapes.
-/
theorem C2_fallthrough (W H : ℤ) (as cs : List Contour)
    (h : as = [] ∨ filterExcept (passA ((W * H : ℤ) : ℚ)) as = Except.ok []) :
    detect_card_border_v2 W H as cs = detect_card_border_canny W H cs ∧
    (cs = [] → detect_card_border_v2 W H as cs = none) := by
  have hmain : detect_card_border_v2 W H as cs = detect_card_border_canny W H cs := by
    rcases v2_cases W H as cs with ⟨_, he⟩ | ⟨e, hf, he⟩ | ⟨_, he⟩ | ⟨v, vs, hf, he⟩
    · exact he
    · rcases h with h1 | h1
      · subst h1
        exact absurd hf (by simp [filterExcept])
      · rw [h1] at hf
        exact Except.noConfusion hf
    · exact he
    · rcases h with h1 | h1
      · subst h1
        exact absurd hf (by simp [filterExcept])
      · rw [h1] at hf
        exact absurd hf (by simp)
  refine ⟨hmain, fun hcs => ?_⟩
  rw [hmain, hcs, canny_nil]

/-- Witness for C2_fallthrough: an all-uniform image yields no contours
under either strategy, Strategy B is consulted, and the detector
reports none without raising. -/
theorem C2_fallthrough_witness : detect_card_border_v2 10 10 [] [] = none :=
  (C2_fallthrough 10 10 [] [] (Or.inl rfl)).2 rfl

/-! ## Claim C3: padding and clamping -/

/--
Counterexample to C3 as stated: a Strategy B (Canny) success is NOT
expanded by the 5-pixel margin.  With no adaptive-threshold contours
and one Canny contour of bounding box (10, 10, 80, 80) in a 100 x 100
image, _detect_card_border_v2 crops exactly (10, 10, 80, 80); the
padded-and-clamped region (5, 5, 90, 90) predicted by the claim is not
produced.
-/
theorem C3_counterexample :
    detect_card_border_v2 100 100 []
        [{ area := 6400, approxLen := 8, x := 10, y := 10, w := 80, h := 80 }]
      = some { x := 10, y := 10, w := 80, h := 80 } ∧
    (({ x := 10, y := 10, w := 80, h := 80 } : CropRegion)
      == { x := 5, y := 5, w := 90, h := 90 }) = false := by
  constructor
  · norm_num [detect_card_border_v2, detect_card_border_v2_body, detect_card_border_canny,
      detect_card_border_canny_body, filterExcept, passCanny, ratioOK, pickMax]
  · decide

/--
C3 (amended): the 5-pixel padding and clamping to the image bounds is
applied to a winning box of Strategy A (in both
_detect_card_border_v2 and _detect_card_border_adaptive); a winning box
of Strategy B is cropped as the raw bounding box, with no padding.
-/
theorem C3_padding_by_strategy (W H : ℤ) (as cs : List Contour) :
    (∀ v vs, filterExcept (passA ((W * H : ℤ) : ℚ)) as = Except.ok (v :: vs) → as ≠ [] →
      detect_card_border_v2 W H as cs = some (padClamp W H (pickMax v vs))) ∧
    (∀ v vs, filterExcept (passA ((W * H : ℤ) : ℚ)) as = Except.ok (v :: vs) →
      detect_card_border_adaptive W H as = some (padClamp W H (pickMax v vs))) ∧
    (∀ r, detect_card_border_canny W H cs = some r →
      ∃ c, c ∈ cs ∧ r = { x := c.x, y := c.y, w := c.w, h := c.h }) := by
  refine ⟨?_, ?_, fun r hr => canny_some_raw W H cs r hr⟩
  · intro v vs hf hne
    rcases v2_cases W H as cs with ⟨h1, _⟩ | ⟨e, h1, _⟩ | ⟨h1, _⟩ | ⟨v2, vs2, h1, he⟩
    · exact absurd h1 hne
    · rw [hf] at h1
      exact Except.noConfusion h1
    · rw [hf] at h1
      exact absurd h1 (by simp)
    · rw [hf] at h1
      obtain ⟨rfl, rfl⟩ : v = v2 ∧ vs = vs2 := by simpa using h1
      exact he
  · intro v vs hf
    rcases adaptive_cases W H as with ⟨h1, _⟩ | ⟨e, h1, _⟩ | ⟨h1, _⟩ | ⟨v2, vs2, h1, he⟩
    · subst h1
      exact absurd hf (by simp [filterExcept])
    · rw [hf] at h1
      exact Except.noConfusion h1
    · rw [hf] at h1
      exact absurd h1 (by simp)
    · rw [hf] at h1
      obtain ⟨rfl, rfl⟩ : v = v2 ∧ vs = vs2 := by simpa using h1
      exact he

/-- Witness for C3_padding_by_strategy: a Strategy A winner with box
(10, 10, 80, 80) in a 100 x 100 image is cropped at the padded clamped
region (5, 5, 90, 90) by both Strategy A implementations. -/
theorem C3_padding_witness :
    detect_card_border_v2 100 100
        [{ area := 6400, approxLen := 4, x := 10, y := 10, w := 80, h := 80 }] []
      = some { x := 5, y := 5, w := 90, h := 90 } ∧
    detect_card_border_adaptive 100 100
        [{ area := 6400, approxLen := 4, x := 10, y := 10, w := 80, h := 80 }]
      = some { x := 5, y := 5, w := 90, h := 90 } := by
  have h := C3_padding_by_strategy 100 100
    [{ area := 6400, approxLen := 4, x := 10, y := 10, w := 80, h := 80 }] []
  have hf : filterExcept (passA (((100 * 100 : ℤ) : ℚ)))
      [{ area := 6400, approxLen := 4, x := 10, y := 10, w := 80, h := 80 }]
      = Except.ok [{ area := 6400, approxLen := 4, x := 10, y := 10, w := 80, h := 80 }] := by
    norm_num [filterExcept, passA, ratioOK]
  have hpc : padClamp 100 100
      (pickMax { area := 6400, approxLen := 4, x := 10, y := 10, w := 80, h := 80 } [])
      = { x := 5, y := 5, w := 90, h := 90 } := by
    decide
  have h1 := h.1 _ [] hf (by simp)
  have h2 := h.2.1 _ [] hf
  rw [hpc] at h1 h2
  exact ⟨h1, h2⟩

/-! ## Claim C5: crop regions stay in bounds -/

/--
C5: assuming every Canny-side contour has its cv2 bounding box inside
the W x H image (which cv2.boundingRect guarantees), every successful
detection — through Strategy A of either implementation (padded and
clamped) or through Strategy B (raw bounding box) — produces a crop
region (x, y, w, h) with 0 ≤ x, 0 ≤ y, x + w ≤ W and y + h ≤ H.
-/
theorem C5_crop_in_bounds (W H : ℤ) (as cs : List Contour)
    (hcs : ∀ c ∈ cs, 0 ≤ c.x ∧ 0 ≤ c.y ∧ c.x + c.w ≤ W ∧ c.y + c.h ≤ H) :
    (∀ r, detect_card_border_v2 W H as cs = some r → regionInBounds W H r) ∧
    (∀ r, detect_card_border_adaptive W H as = some r → regionInBounds W H r) := by
  have hcanny : ∀ r, detect_card_border_canny W H cs = some r → regionInBounds W H r := by
    intro r hr
    obtain ⟨c, hcmem, hreq⟩ := canny_some_raw W H cs r hr
    obtain ⟨h1, h2, h3, h4⟩ := hcs c hcmem
    subst hreq
    exact ⟨h1, h2, h3, h4⟩
  constructor
  · intro r hr
    rcases v2_cases W H as cs with ⟨_, he⟩ | ⟨e, hf, he⟩ | ⟨_, he⟩ | ⟨v, vs, hf, he⟩
    · rw [he] at hr
      exact hcanny r hr
    · rw [he] at hr
      exact absurd hr (by simp)
    · rw [he] at hr
      exact hcanny r hr
    · rw [he] at hr
      injection hr with h2
      exact h2 ▸ padClamp_inBounds W H (pickMax v vs)
  · intro r hr
    rcases adaptive_cases W H as with ⟨_, he⟩ | ⟨e, hf, he⟩ | ⟨_, he⟩ | ⟨v, vs, hf, he⟩
    · rw [he] at hr
      exact absurd hr (by simp)
    · rw [he] at hr
      exact absurd hr (by simp)
    · rw [he] at hr
      exact absurd hr (by simp)
    · rw [he] at hr
      injection hr with h2
      exact h2 ▸ padClamp_inBounds W H (pickMax v vs)

/-- Witness for C5_crop_in_bounds: the Strategy B detection of
C3_counterexample stays inside the 100 x 100 image. -/
theorem C5_crop_in_bounds_witness :
    regionInBounds 100 100 { x := 10, y := 10, w := 80, h := 80 } := by
  have h := C5_crop_in_bounds 100 100 []
    [{ area := 6400, approxLen := 8, x := 10, y := 10, w := 80, h := 80 }]
    (by norm_num)
  exact h.1 { x := 10, y := 10, w := 80, h := 80 }
    (by norm_num [detect_card_border_v2, detect_card_border_v2_body, detect_card_border_canny,
      detect_card_border_canny_body, filterExcept, passCanny, ratioOK, pickMax])

/-! ## Claim C6: exceptions in the detectors are contained -/

/--
C6: an exception raised inside the try block of either detection
strategy (for example the ZeroDivisionError of a zero-height bounding
box) is caught by the enclosing except and converted to the
no-border-found value none; and when detection reports none, the
cloudrun pipeline substitutes the full original image for the cropped
stage, so border detection never aborts the pipeline.
-/
theorem C6_exceptions_contained (W H : ℤ) (as cs : List Contour)
    (contoursOf : Img → List Contour) (cropContent : Img → CropRegion → ℕ) (img : Img) :
    (∀ e, detect_card_border_v2_body W H as cs = Except.error e →
      detect_card_border_v2 W H as cs = none) ∧
    (∀ e, detect_card_border_canny_body W H cs = Except.error e →
      detect_card_border_canny W H cs = none) ∧
    (∀ e, detect_card_border_adaptive_body W H as = Except.error e →
      detect_card_border_adaptive W H as = none) ∧
    (detect_card_border_adaptive img.width img.height (contoursOf img) = none →
      croppedStage contoursOf cropContent img = img) := by
  refine ⟨?_, ?_, ?_, ?_⟩
  · intro e he
    rw [detect_card_border_v2, he]
  · intro e he
    rw [detect_card_border_canny, he]
  · intro e he
    rw [detect_card_border_adaptive, he]
  · intro hn
    rw [croppedStage, hn]

/-- Witness for C6_exceptions_contained: a contour passing the area and
4-corner tests with a zero-height bounding box makes the Strategy A
body raise ZeroDivisionError; the detector still returns none and the
pipeline keeps the full 100 x 100 image. -/
theorem C6_exceptions_contained_witness :
    detect_card_border_v2 100 100
        [{ area := 6400, approxLen := 4, x := 0, y := 0, w := 10, h := 0 }] [] = none ∧
    croppedStage (fun _ => [{ area := 6400, approxLen := 4, x := 0, y := 0, w := 10, h := 0 }])
      (fun _ _ => 0) { width := 100, height := 100, data := 7 }
      = { width := 100, height := 100, data := 7 } := by
  have h := C6_exceptions_contained 100 100
    [{ area := 6400, approxLen := 4, x := 0, y := 0, w := 10, h := 0 }] []
    (fun _ => [{ area := 6400, approxLen := 4, x := 0, y := 0, w := 10, h := 0 }])
    (fun _ _ => 0) { width := 100, height := 100, data := 7 }
  refine ⟨h.1 () ?_, h.2.2.2 ?_⟩
  · norm_num [detect_card_border_v2_body, filterExcept, passA, ratioOK]
  · norm_num [detect_card_border_adaptive, detect_card_border_adaptive_body, filterExcept,
      passA, ratioOK]

/-! ## Claim C9: strict aspect-ratio boundaries -/

/--
C9: a contour whose bounding-box aspect ratio w / h is exactly 0.6 or
exactly 1.5 is rejected by the per-contour acceptance test of both
strategies — the band 0.6 < w / h < 1.5 uses strict inequalities, so
both boundary values fail the test.
-/
theorem C9_boundary_rejected (imgArea : ℚ) (c : Contour) (hh : c.h ≠ 0)
    (har : (c.w : ℚ) / (c.h : ℚ) = (0.6 : ℚ) ∨ (c.w : ℚ) / (c.h : ℚ) = (1.5 : ℚ)) :
    passA imgArea c = Except.ok false ∧ passCanny imgArea c = Except.ok false := by
  have hite : (if (0.6 : ℚ) < (c.w : ℚ) / (c.h : ℚ) ∧ (c.w : ℚ) / (c.h : ℚ) < (1.5 : ℚ)
      then true else false) = false := by
    rcases har with h | h <;> rw [h] <;> norm_num
  have hro : ratioOK c = Except.ok false := by
    simp only [ratioOK, if_neg hh, hite]
  constructor
  · rw [passA]
    by_cases hA : c.area < (0.2 : ℚ) * imgArea ∨ c.area > (0.95 : ℚ) * imgArea
    · rw [if_pos hA]
    · rw [if_neg hA]
      by_cases h4 : c.approxLen = 4
      · rw [if_pos h4]
        exact hro
      · rw [if_neg h4]
  · rw [passCanny]
    by_cases hA : c.area < (0.2 : ℚ) * imgArea ∨ c.area > (0.95 : ℚ) * imgArea
    · rw [if_pos hA]
    · rw [if_neg hA]
      exact hro

/-- Witness for C9_boundary_rejected at a 3 x 5 box (aspect ratio
exactly 0.6) in an image of area 10000. -/
theorem C9_boundary_rejected_witness :
    passA 10000 { area := 2500, approxLen := 4, x := 0, y := 0, w := 3, h := 5 }
      = Except.ok false ∧
    passCanny 10000 { area := 2500, approxLen := 4, x := 0, y := 0, w := 3, h := 5 }
      = Except.ok false :=
  C9_boundary_rejected 10000 _ (by norm_num) (Or.inl (by norm_num))

/-! ## Claim C1: the thumbnail quality loop -/

/--
C1 (amended): the quality loop of compress_to_jpeg_under_kb attempts
exactly the qualities 85, 75, 65, 55, 45, 35 — the guard quality >= 30
with step -10 from 85 never attempts quality 30 itself — and returns
the first encoding whose byte length is at most max_kb * 1024; when no
attempted quality fits it returns the quality-35 encoding, the
smallest attempted one.
-/
theorem C1_quality_loop_spec (encodeQ : ℕ → List ℕ) (maxKb : ℕ) (orig : List ℕ) :
    attemptedQualities 85 = [85, 75, 65, 55, 45, 35] ∧
    compress_quality_loop encodeQ maxKb orig =
      ((attemptedQualities 85).find? (fun q => (encodeQ q).length ≤ maxKb * 1024)).elim
        (encodeQ 35) encodeQ := by
  have hlist : attemptedQualities 85 = [85, 75, 65, 55, 45, 35] := by
    simp [attemptedQualities]
  refine ⟨hlist, ?_⟩
  rw [hlist, compress_quality_loop]
  by_cases h85 : (encodeQ 85).length ≤ maxKb * 1024
  · simp [qualityLoopFrom, List.find?, h85]
  · by_cases h75 : (encodeQ 75).length ≤ maxKb * 1024
    · simp [qualityLoopFrom, List.find?, h85, h75]
    · by_cases h65 : (encodeQ 65).length ≤ maxKb * 1024
      · simp [qualityLoopFrom, List.find?, h85, h75, h65]
      · by_cases h55 : (encodeQ 55).length ≤ maxKb * 1024
        · simp [qualityLoopFrom, List.find?, h85, h75, h65, h55]
        · by_cases h45 : (encodeQ 45).length ≤ maxKb * 1024
          · simp [qualityLoopFrom, List.find?, h85, h75, h65, h55, h45]
          · by_cases h35 : (encodeQ 35).length ≤ maxKb * 1024
            · simp [qualityLoopFrom, List.find?, h85, h75, h65, h55, h45, h35]
            · simp [qualityLoopFrom, List.find?, h85, h75, h65, h55, h45, h35]

/--
Counterexample to C1 as stated: quality 30 is never attempted (the
attempted qualities from 85 are 85, 75, 65, 55, 45, 35), and with an
encoder producing q bytes at quality q and a zero byte budget — so
nothing fits — the loop returns the 35-byte quality-35 encoding, not a
30-byte quality-30 encoding.
-/
theorem C1_counterexample :
    attemptedQualities 85 = [85, 75, 65, 55, 45, 35] ∧
    (attemptedQualities 85).contains 30 = false ∧
    compress_quality_loop (fun q => List.replicate q 0) 0 [] = List.replicate 35 0 ∧
    (List.replicate 35 (0 : ℕ) == List.replicate 30 0) = false := by
  refine ⟨by simp [attemptedQualities], ?_, ?_, by decide⟩
  · rw [show attemptedQualities 85 = [85, 75, 65, 55, 45, 35] from by simp [attemptedQualities]]
    decide
  · rw [compress_quality_loop]
    simp [qualityLoopFrom]

/-! ## Claim C7: the enhance-resize-encode tail is deterministic -/

/--
C7: on an already-normalized image — the enhancement preserves the
dimensions (as the PIL photometric operators do) and the longest side
is at most the 1600 target — the Resizer passes the enhanced image
through unchanged, and running the Enhancer + Resizer + Encoder chain
twice on the same image yields byte-identical encoded output.
-/
theorem C7_chain_deterministic (enh : Img → Img) (resample : Img → ℤ → ℤ → ℕ)
    (enc : Img → List ℕ) (img : Img)
    (h1 : max img.width img.height ≤ 1600)
    (h2 : (enh img).width = img.width) (h3 : (enh img).height = img.height) :
    processChain enh resample enc img = processChain enh resample enc img ∧
    processChain enh resample enc img = enc (enh img) := by
  refine ⟨rfl, ?_⟩
  rw [processChain]
  congr 1
  simp only [resize_if_needed]
  rw [if_neg (by rw [h2, h3]; omega)]

/-- Witness for C7_chain_deterministic on a 100 x 50 image with the
identity enhancement and an encoder reading the pixel token. -/
theorem C7_chain_deterministic_witness :
    processChain (fun i => i) (fun _ _ _ => 0) (fun i => [i.data])
      { width := 100, height := 50, data := 3 } = [3] := by
  have h := C7_chain_deterministic (fun i => i) (fun _ _ _ => 0) (fun i => [i.data])
    { width := 100, height := 50, data := 3 } (by decide) rfl rfl
  rw [h.2]

/-! ## Claims C4 and C10: failure handling of preprocess_card_image -/

/--
Counterexample to C4 as stated: an undecodable input does not abort
the pipeline invocation and no DecodeError propagates to the caller —
the failure raised inside the try block is caught by the except, and
preprocess_card_image returns the original bytes with image/jpeg.
-/
theorem C4_counterexample :
    preprocessBody (fun _ => none) (fun _ => []) (fun _ _ => 0) (fun i => i)
      (fun _ _ _ => 0) (fun i => [i.data]) [1, 2, 3] = Except.error PErr.decodeError ∧
    preprocess_card_image (fun _ => none) (fun _ => []) (fun _ _ => 0) (fun i => i)
      (fun _ _ _ => 0) (fun i => [i.data]) [1, 2, 3] none = ([1, 2, 3], jpegMime) := by
  exact ⟨rfl, rfl⟩

/--
C4 (amended): when the input bytes cannot be decoded, the try block of
preprocess_card_image fails with DecodeError, the enclosing except
catches it, and the function returns the original bytes with the
original mime type (or image/jpeg when none was given); the decode
failure never propagates out of preprocess_card_image.
-/
theorem C4_decode_failure_handled (decode : List ℕ → Option Img)
    (contoursOf : Img → List Contour) (cropContent : Img → CropRegion → ℕ)
    (enh : Img → Img) (resample : Img → ℤ → ℤ → ℕ) (enc : Img → List ℕ)
    (bytes : List ℕ) (mime : Option String) (hd : decode bytes = none) :
    preprocessBody decode contoursOf cropContent enh resample enc bytes
      = Except.error PErr.decodeError ∧
    preprocess_card_image decode contoursOf cropContent enh resample enc bytes mime
      = (bytes, pythonOr mime jpegMime) := by
  have hberr : preprocessBody decode contoursOf cropContent enh resample enc bytes
      = Except.error PErr.decodeError := by
    simp only [preprocessBody, hd]
  refine ⟨hberr, ?_⟩
  simp only [preprocess_card_image, hberr]

/-- Witness for C4_decode_failure_handled: a failing decoder on the
bytes [9] with declared mime image/png returns ([9], image/png). -/
theorem C4_decode_failure_handled_witness :
    preprocess_card_image (fun _ => none) (fun _ => []) (fun _ _ => 0) (fun i => i)
      (fun _ _ _ => 0) (fun i => [i.data]) [9] (some pngMime) = ([9], pngMime) := by
  have h := C4_decode_failure_handled (fun _ => none) (fun _ => []) (fun _ _ => 0) (fun i => i)
    (fun _ _ _ => 0) (fun i => [i.data]) [9] (some pngMime) rfl
  rw [h.2]
  rfl

/--
C10: preprocess_card_image never fails: its result is either the value
of the successfully completed body, or — whenever the body fails,
including on undecodable bytes — exactly the original input bytes
paired with the original mime type, where Python truthiness makes None
(and the empty string) fall back to image/jpeg.
-/
theorem C10_preprocess_total (decode : List ℕ → Option Img)
    (contoursOf : Img → List Contour) (cropContent : Img → CropRegion → ℕ)
    (enh : Img → Img) (resample : Img → ℤ → ℤ → ℕ) (enc : Img → List ℕ)
    (bytes : List ℕ) (mime : Option String) :
    (decode bytes = none →
      preprocess_card_image decode contoursOf cropContent enh resample enc bytes mime
        = (bytes, pythonOr mime jpegMime)) ∧
    (∀ v, preprocessBody decode contoursOf cropContent enh resample enc bytes = Except.ok v →
      preprocess_card_image decode contoursOf cropContent enh resample enc bytes mime = v) ∧
    (preprocess_card_image decode contoursOf cropContent enh resample enc bytes mime
        = (bytes, pythonOr mime jpegMime) ∨
      ∃ v, preprocessBody decode contoursOf cropContent enh resample enc bytes = Except.ok v ∧
        preprocess_card_image decode contoursOf cropContent enh resample enc bytes mime = v) := by
  refine ⟨?_, ?_, ?_⟩
  · intro hd
    have hberr : preprocessBody decode contoursOf cropContent enh resample enc bytes
        = Except.error PErr.decodeError := by
      simp only [preprocessBody, hd]
    simp only [preprocess_card_image, hberr]
  · intro v hv
    simp only [preprocess_card_image, hv]
  · cases hb : preprocessBody decode contoursOf cropContent enh resample enc bytes with
    | error e =>
      left
      simp only [preprocess_card_image, hb]
    | ok v =>
      right
      refine ⟨v, rfl, ?_⟩
      simp only [preprocess_card_image, hb]

/-- Witness for C10_preprocess_total: a failing decoder on [1, 2, 3]
with declared mime image/png returns the originals unchanged. -/
theorem C10_preprocess_total_witness :
    preprocess_card_image (fun _ => none) (fun _ => []) (fun _ _ => 0) (fun i => i)
      (fun _ _ _ => 0) (fun i => [i.data]) [1, 2, 3] (some pngMime)
      = ([1, 2, 3], pngMime) := by
  have h := C10_preprocess_total (fun _ => none) (fun _ => []) (fun _ _ => 0) (fun i => i)
    (fun _ _ _ => 0) (fun i => [i.data]) [1, 2, 3] (some pngMime)
  rw [h.1 rfl]
  rfl

end CardPipe
